import Mathlib

/-!
Shallow embedding of the marshaling layer in `ffi-convert/src/types.rs`:
the `CStringArray`, `CArray<T>` and `CRange<T>` adapters with their
`CReprOf` (construct), `AsRust` (restore) and `CDrop` (release)
implementations, together with the `Drop` impls of `CArray` and `CRange`.

Heap memory is modelled explicitly: a heap is a fresh-address counter plus
association lists from addresses to blocks.  Address `0` plays the role of
the null pointer; allocation hands out fresh non-null addresses, matching
the guarantee that Rust allocations (and `Box::into_raw`) never return
null.  Machine integer casts (`input.len() as libc::c_int`,
`self.size as usize`) are modelled as explicit wrap-around arithmetic.
-/

namespace FfiConvert

/-- Error values crossing the boundary: the `failure::Error` values of the
source, tagged by which contract operation produced them (the numeric
payload distinguishes individual error sites). -/
inductive FfiErr where
  | construction : Nat → FfiErr
  | restoration : Nat → FfiErr
  | release : Nat → FfiErr
deriving DecidableEq

/-- Outcome of running a fallible operation: a returned value, a returned
`Err`, undefined behaviour (an invalid memory access the Rust code would
perform), or an abort of the whole process (a Rust panic, as produced by
`.expect(...)`). -/
inductive Res (α : Type) where
  | ok : α → Res α
  | err : FfiErr → Res α
  | ub : Res α
  | fatal : Res α
deriving DecidableEq

/-- The value of `n as libc::c_int` for a `usize` value `n`: `libc::c_int`
is a 32-bit signed integer, and Rust `as` casts wrap, so the result is
`n` reduced modulo `2^32` into the interval `[-2^31, 2^31)`. -/
def i32ofNat (n : Nat) : Int :=
  if n % 2 ^ 32 < 2 ^ 31 then ((n % 2 ^ 32 : Nat) : Int)
  else ((n % 2 ^ 32 : Nat) : Int) - 2 ^ 32

/-- The value of `i as usize` for a `libc::c_int` (i32) value `i`: wraps
into `[0, 2^64)` (64-bit target). -/
def usizeOfI32 (i : Int) : Nat :=
  (i % 2 ^ 64).toNat

/-- A native Rust `String`, seen as its list of bytes.  The only property
of the byte values the adapters inspect is whether the NUL byte `0`
occurs inside the string. -/
abbrev Str := List Nat

/-- Association-list lookup on (address, block) pairs. -/
def assocFind (p : Nat) : List (Nat × α) → Option α
  | [] => none
  | (q, x) :: rest => if q = p then some x else assocFind p rest

/-- Association-list removal of every entry at an address. -/
def assocRemove (p : Nat) : List (Nat × α) → List (Nat × α)
  | [] => []
  | (q, x) :: rest =>
    if q = p then assocRemove p rest else (q, x) :: assocRemove p rest

/-- The heap as seen by the text-array adapter: a fresh-address counter,
the live C strings (`CString` allocations, keyed by address), and the
live pointer blocks (the boxed slices of string pointers built by
`CStringArray::c_repr_of`, keyed by address). -/
structure SHeap where
  next : Nat
  strs : List (Nat × Str)
  arrs : List (Nat × List Nat)
deriving DecidableEq

def SHeap.empty : SHeap := ⟨0, [], []⟩

/-- Modelled from the spec: `convert_to_c_string_result!` (the helper
macro lives outside the core source) converts one text value to an owned
null-terminated C string.  It fails with a `ConstructionError` when the
text contains an embedded terminator (NUL) byte, and otherwise allocates
a fresh block holding the bytes and returns its (non-null) address. -/
def cstrNew (s : Str) (h : SHeap) : Res Nat × SHeap :=
  if 0 ∈ s then (Res.err (FfiErr.construction 0), h)
  else (Res.ok (h.next + 1), ⟨h.next + 1, (h.next + 1, s) :: h.strs, h.arrs⟩)

/-- Modelled from the spec: `create_rust_string_from!` (outside the core
source) reads the C string at an address back into native text.  Reading
a dead address is undefined behaviour; a live block always decodes, since
it was written from native text. -/
def readStr (p : Nat) (h : SHeap) : Res Str :=
  match assocFind p h.strs with
  | some s => Res.ok s
  | none => Res.ub

/-- Modelled from the spec: `CString::from_raw_pointer(p)?` followed by the
drop of the reclaimed `CString`.  It fails with a `ReleaseError` on the
null pointer (a malformed nested value), frees the string otherwise;
reclaiming a dead non-null address is undefined behaviour. -/
def cstrFree (p : Nat) (h : SHeap) : Res Unit × SHeap :=
  if p = 0 then (Res.err (FfiErr.release 0), h)
  else
    match assocFind p h.strs with
    | some _ => (Res.ok (), ⟨h.next, assocRemove p h.strs, h.arrs⟩)
    | none => (Res.ub, h)

/-- `Box::into_raw(vec.into_boxed_slice())` for the block of string
pointers: returns a fresh non-null address.  An empty boxed slice makes
no real allocation in Rust (the raw pointer is dangling but non-null),
so no heap entry is recorded for it. -/
def allocArr (ps : List Nat) (h : SHeap) : Nat × SHeap :=
  if ps = [] then (h.next + 1, ⟨h.next + 1, h.strs, h.arrs⟩)
  else (h.next + 1, ⟨h.next + 1, h.strs, (h.next + 1, ps) :: h.arrs⟩)

/-- The boundary value of the text-array adapter: `CStringArray` with its
`data` pointer (an address, `0` being null) and its `size` field of C
type `libc::c_int` (a signed 32-bit value, held as the `Int` it denotes). -/
structure CStringArray where
  data : Nat
  size : Int
deriving DecidableEq

/-- The element-by-element conversion inside `CStringArray::c_repr_of`:
`input.into_iter().map(|s| convert_to_c_string_result!(s)).collect::<Result<Vec<_>, _>>()`.
`collect` stops at the first failing element; the raw pointers already
collected are then dropped without freeing their strings, so the heap
keeps the previously converted allocations on the error path. -/
def collectStrs : List Str → SHeap → Res (List Nat) × SHeap
  | [], h => (Res.ok [], h)
  | s :: rest, h =>
    match cstrNew s h with
    | (Res.ok p, h1) =>
      match collectStrs rest h1 with
      | (Res.ok ps, h2) => (Res.ok (p :: ps), h2)
      | (Res.err e, h2) => (Res.err e, h2)
      | (Res.ub, h2) => (Res.ub, h2)
      | (Res.fatal, h2) => (Res.fatal, h2)
    | (Res.err e, h1) => (Res.err e, h1)
    | (Res.ub, h1) => (Res.ub, h1)
    | (Res.fatal, h1) => (Res.fatal, h1)

/-- `impl CReprOf<Vec<String>> for CStringArray`: `size` is
`input.len() as libc::c_int` (a wrapping cast), `data` is
`Box::into_raw` of the collected pointer block; a failing element
conversion is surfaced (with context) through `?`. -/
def CStringArray.c_repr_of (input : List Str) (h : SHeap) : Res CStringArray × SHeap :=
  match collectStrs input h with
  | (Res.ok ps, h1) =>
    (Res.ok ⟨(allocArr ps h1).1, i32ofNat input.length⟩, (allocArr ps h1).2)
  | (Res.err e, h1) => (Res.err e, h1)
  | (Res.ub, h1) => (Res.ub, h1)
  | (Res.fatal, h1) => (Res.fatal, h1)

/-- The read loop of `CStringArray::as_rust`: decode each of the string
pointers in order. -/
def readStrs : List Nat → SHeap → Res (List Str)
  | [], _ => Res.ok []
  | p :: rest, h =>
    match readStr p h with
    | Res.ok s =>
      match readStrs rest h with
      | Res.ok ss => Res.ok (s :: ss)
      | Res.err e => Res.err e
      | Res.ub => Res.ub
      | Res.fatal => Res.fatal
    | Res.err e => Res.err e
    | Res.ub => Res.ub
    | Res.fatal => Res.fatal

/-- `impl AsRust<Vec<String>> for CStringArray`:
`slice::from_raw_parts_mut(self.data, self.size as usize)` followed by the
decode loop.  With a count of zero no memory is read; a count exceeding
the live block (or a dead block address) is an out-of-bounds access,
hence undefined behaviour. -/
def CStringArray.as_rust (c : CStringArray) (h : SHeap) : Res (List Str) :=
  if usizeOfI32 c.size = 0 then Res.ok []
  else
    match assocFind c.data h.arrs with
    | some ps =>
      if usizeOfI32 c.size ≤ ps.length then readStrs (ps.take (usizeOfI32 c.size)) h
      else Res.ub
    | none => Res.ub

/-- The free loop of `CStringArray::do_drop`:
`for p in y.into_iter() { let _ = CString::from_raw_pointer(*p)?; }` —
the `?` returns the first failure immediately, so the remaining strings
are not freed. -/
def freeStrs : List Nat → SHeap → Res Unit × SHeap
  | [], h => (Res.ok (), h)
  | p :: rest, h =>
    match cstrFree p h with
    | (Res.ok _, h1) => freeStrs rest h1
    | (Res.err e, h1) => (Res.err e, h1)
    | (Res.ub, h1) => (Res.ub, h1)
    | (Res.fatal, h1) => (Res.fatal, h1)

/-- `impl CDrop for CStringArray`: reconstruct the pointer block as an
owned box (freeing it whether or not the loop finishes, since the box is
dropped on the early-return path too), then try to free each string in
order, propagating the first failure with `?`.  A zero count reclaims a
zero-length boxed slice, which frees nothing. -/
def CStringArray.do_drop (c : CStringArray) (h : SHeap) : Res Unit × SHeap :=
  if usizeOfI32 c.size = 0 then (Res.ok (), h)
  else
    match assocFind c.data h.arrs with
    | some ps =>
      if ps.length = usizeOfI32 c.size then
        freeStrs ps ⟨h.next, h.strs, assocRemove c.data h.arrs⟩
      else (Res.ub, h)
    | none => (Res.ub, h)

/-- `CStringArray` implements no `Drop` in the source; its fields are a
raw pointer and an integer, so the compiler-generated scope-exit glue
frees nothing: the heap is unchanged when a `CStringArray` goes out of
scope. -/
def CStringArray.dropGlue (_ : CStringArray) (h : SHeap) : SHeap := h

/-- The capabilities of an element type `ε` of `CArray`, over native type
`ν` and element-owned state `σ` (the portion of the heap the elements
allocate into): the trait bound `U: CReprOf<V> + CDrop` of the source,
its `AsRust` impl, plus `dropGlue`, the compiler-generated `Drop` glue
that Rust runs when a value of type `ε` is dropped (the identity when
`ε` has no `Drop` impl). -/
structure ElemOps (ν ε σ : Type) where
  c_repr_of : ν → σ → Res ε × σ
  as_rust : ε → σ → Res ν
  dropGlue : ε → σ → σ
  do_drop : ε → σ → Res Unit × σ

/-- The heap as seen by the generic array adapter: a fresh-address
counter, the live element blocks built by `CArray::c_repr_of`, and the
inner state `σ` owned by the elements themselves. -/
structure AHeap (ε σ : Type) where
  next : Nat
  blocks : List (Nat × List ε)
  inner : σ
deriving DecidableEq

/-- The boundary value of the generic array adapter: `CArray<T>` with its
`data_ptr` (an address, `0` being null) and its `size` field of type
`usize` (unsigned, so held as a `Nat`). -/
structure CArray (ε : Type) where
  data_ptr : Nat
  size : Nat
deriving DecidableEq

/-- The element-by-element conversion inside `CArray::c_repr_of`:
`input.into_iter().map(|item| U::c_repr_of(item)).collect::<Result<Vec<_>, Error>>()`.
`collect` stops at the first failing element and drops the partially
built vector, running the `Drop` glue of each already-converted element
front to back. -/
def collectElems (ops : ElemOps ν ε σ) (acc : List ε) :
    List ν → σ → Res (List ε) × σ
  | [], s => (Res.ok acc.reverse, s)
  | x :: rest, s =>
    match ops.c_repr_of x s with
    | (Res.ok e, s1) => collectElems ops (e :: acc) rest s1
    | (Res.err e2, s1) =>
      (Res.err e2, acc.reverse.foldl (fun t u => ops.dropGlue u t) s1)
    | (Res.ub, s1) => (Res.ub, s1)
    | (Res.fatal, s1) => (Res.fatal, s1)

/-- `impl CReprOf<Vec<V>> for CArray<U>`: an empty input stores the null
pointer and size zero without allocating; otherwise the converted
elements are collected into one fresh block — but the collected `Result`
goes through `.expect("Could not convert to C representation")`, so a
failing element conversion panics, aborting the process instead of
returning the error. -/
def CArray.c_repr_of (ops : ElemOps ν ε σ) (input : List ν) (st : AHeap ε σ) :
    Res (CArray ε) × AHeap ε σ :=
  if input.length > 0 then
    match collectElems ops [] input st.inner with
    | (Res.ok es, s1) =>
      (Res.ok ⟨st.next + 1, input.length⟩,
        ⟨st.next + 1, (st.next + 1, es) :: st.blocks, s1⟩)
    | (Res.err _, s1) => (Res.fatal, ⟨st.next, st.blocks, s1⟩)
    | (Res.ub, s1) => (Res.ub, ⟨st.next, st.blocks, s1⟩)
    | (Res.fatal, s1) => (Res.fatal, ⟨st.next, st.blocks, s1⟩)
  else (Res.ok ⟨0, 0⟩, st)

/-- The read loop of `CArray::as_rust`: `vec.push(value.as_rust()?)` —
restore each element in order, aborting at the first failure. -/
def readElems (re : ε → σ → Res ν) : List ε → σ → Res (List ν)
  | [], _ => Res.ok []
  | e :: rest, s =>
    match re e s with
    | Res.ok v =>
      match readElems re rest s with
      | Res.ok vs => Res.ok (v :: vs)
      | Res.err e2 => Res.err e2
      | Res.ub => Res.ub
      | Res.fatal => Res.fatal
    | Res.err e2 => Res.err e2
    | Res.ub => Res.ub
    | Res.fatal => Res.fatal

/-- `impl AsRust<Vec<V>> for CArray<U>`: a zero size returns the empty
vector without dereferencing `data_ptr`; otherwise
`slice::from_raw_parts_mut(self.data_ptr, self.size)` is read and each
element restored in order.  A size exceeding the live block (or a dead
block address) is an out-of-bounds access, hence undefined behaviour. -/
def CArray.as_rust (ops : ElemOps ν ε σ) (c : CArray ε) (st : AHeap ε σ) :
    Res (List ν) :=
  if c.size > 0 then
    match assocFind c.data_ptr st.blocks with
    | some es =>
      if c.size ≤ es.length then readElems ops.as_rust (es.take c.size) st.inner
      else Res.ub
    | none => Res.ub
  else Res.ok []

/-- `impl CDrop for CArray<T>`: `Box::from_raw(from_raw_parts_mut(self.data_ptr, self.size))`
and drop the box — Rust drops each element of the boxed slice in order
(running `T`'s `Drop` glue, not `CDrop::do_drop`) and then frees the
block; the function itself always returns `Ok(())`.  A zero size
reclaims a zero-length boxed slice, which drops no element and frees
nothing. -/
def CArray.do_drop (ops : ElemOps ν ε σ) (c : CArray ε) (st : AHeap ε σ) :
    Res Unit × AHeap ε σ :=
  if c.size = 0 then (Res.ok (), st)
  else
    match assocFind c.data_ptr st.blocks with
    | some es =>
      if es.length = c.size then
        (Res.ok (),
          ⟨st.next, assocRemove c.data_ptr st.blocks,
            es.foldl (fun s e => ops.dropGlue e s) st.inner⟩)
      else (Res.ub, st)
    | none => (Res.ub, st)

/-- `impl Drop for CArray<T>`: the scope-exit glue runs
`let _ = self.do_drop();`, discarding the result. -/
def CArray.dropHook (ops : ElemOps ν ε σ) (c : CArray ε) (st : AHeap ε σ) :
    AHeap ε σ :=
  (CArray.do_drop ops c st).2

/-- A native `std::ops::Range` value: `Range { start, end }`. -/
structure RRange (ν : Type) where
  start : ν
  «end» : ν
deriving DecidableEq

/-- The boundary value of the range adapter: `CRange<T>`, an inline pair
with no separate allocation. -/
structure CRange (ε : Type) where
  start : ε
  «end» : ε
deriving DecidableEq

/-- `impl CReprOf<Range<V>> for CRange<U>`: construct the two endpoints
independently through `U::c_repr_of`, propagating failures with `?`;
no ordering check is performed. -/
def CRange.c_repr_of (ce : ν → σ → Res ε × σ) (input : RRange ν) (s : σ) :
    Res (CRange ε) × σ :=
  match ce input.start s with
  | (Res.ok a, s1) =>
    match ce input.«end» s1 with
    | (Res.ok b, s2) => (Res.ok ⟨a, b⟩, s2)
    | (Res.err e, s2) => (Res.err e, s2)
    | (Res.ub, s2) => (Res.ub, s2)
    | (Res.fatal, s2) => (Res.fatal, s2)
  | (Res.err e, s1) => (Res.err e, s1)
  | (Res.ub, s1) => (Res.ub, s1)
  | (Res.fatal, s1) => (Res.fatal, s1)

/-- `impl AsRust<Range<V>> for CRange<U>`: restore the two endpoints
independently through `U::as_rust`, propagating failures with `?`;
no ordering check is performed. -/
def CRange.as_rust (re : ε → σ → Res ν) (c : CRange ε) (s : σ) :
    Res (RRange ν) :=
  match re c.start s with
  | Res.ok a =>
    match re c.«end» s with
    | Res.ok b => Res.ok ⟨a, b⟩
    | Res.err e => Res.err e
    | Res.ub => Res.ub
    | Res.fatal => Res.fatal
  | Res.err e => Res.err e
  | Res.ub => Res.ub
  | Res.fatal => Res.fatal

/-- `impl CDrop for CRange<T>`: `Ok(())` — the range owns no memory. -/
def CRange.do_drop (_ : CRange ε) (s : σ) : Res Unit × σ :=
  (Res.ok (), s)

/-- `impl Drop for CRange<T>`: the scope-exit glue runs
`let _ = self.do_drop();`, discarding the result. -/
def CRange.dropHook (c : CRange ε) (s : σ) : σ :=
  (CRange.do_drop c s).2

/-- `CStringArray` as an element type of `CArray` (it satisfies the
`CReprOf<Vec<String>> + CDrop` bound); its `Drop` glue is trivial since
it implements no `Drop`. -/
def stringArrayOps : ElemOps (List Str) CStringArray SHeap :=
  ⟨CStringArray.c_repr_of, CStringArray.as_rust, CStringArray.dropGlue,
    CStringArray.do_drop⟩

/-- A primitive scalar element type for instantiating the generic
adapters in witnesses: conversion is the identity and owns no state. -/
def natElemOps : ElemOps Nat Nat Unit :=
  ⟨fun n s => (Res.ok n, s), fun n _ => Res.ok n, fun _ s => s,
    fun _ s => (Res.ok (), s)⟩

/-- An element type whose restore fails exactly on the element `0`, for
exercising the fail-fast behaviour of `CArray::as_rust`. -/
def flakyRestoreOps : ElemOps Nat Nat Unit :=
  ⟨fun n s => (Res.ok n, s),
    fun n _ => if n = 0 then Res.err (FfiErr.restoration 9) else Res.ok n,
    fun _ s => s, fun _ s => (Res.ok (), s)⟩

/-- Composing construct and restore for the text-array adapter, starting
from a given heap: the round-trip claims are statements about this
composite. -/
def restoreAfterConstruct (v : List Str) (h : SHeap) : Res (List Str) :=
  match CStringArray.c_repr_of v h with
  | (Res.ok c, h2) => CStringArray.as_rust c h2
  | (Res.err e, _) => Res.err e
  | (Res.ub, _) => Res.ub
  | (Res.fatal, _) => Res.fatal

/-! Helper lemmas about the heap model. -/

theorem assocFind_remove_ne (p q : Nat) (l : List (Nat × α)) (hne : q ≠ p) :
    assocFind q (assocRemove p l) = assocFind q l := by
  induction l with
  | nil => rfl
  | cons hd tl ih =>
    obtain ⟨a, x⟩ := hd
    by_cases hap : a = p
    · subst hap
      have hnq : ¬ a = q := fun h => hne h.symm
      simp [assocRemove, assocFind, hnq, ih]
    · simp [assocRemove, assocFind, hap, ih]

theorem assocFind_remove_self (p : Nat) (l : List (Nat × α)) :
    assocFind p (assocRemove p l) = none := by
  induction l with
  | nil => rfl
  | cons hd tl ih =>
    obtain ⟨a, x⟩ := hd
    by_cases hap : a = p
    · simp [assocRemove, hap, ih]
    · simp [assocRemove, assocFind, hap, ih]

/-- Whatever the outcome, the element-conversion loop of the text-array
adapter never touches the pointer-block region, only increases the
fresh-address counter, and preserves the contents of every string
address that was already in range before the call. -/
theorem collectStrs_spec (v : List Str) (h : SHeap) :
    (collectStrs v h).2.arrs = h.arrs ∧ h.next ≤ (collectStrs v h).2.next ∧
      ∀ q, q ≤ h.next →
        assocFind q (collectStrs v h).2.strs = assocFind q h.strs := by
  induction v generalizing h with
  | nil => exact ⟨rfl, Nat.le_refl _, fun q _ => rfl⟩
  | cons s rest ih =>
    by_cases hs : 0 ∈ s
    · simp [collectStrs, cstrNew, hs]
    · rcases hc : collectStrs rest ⟨h.next + 1, (h.next + 1, s) :: h.strs, h.arrs⟩
        with ⟨r, h2⟩
      have hih := ih (h := ⟨h.next + 1, (h.next + 1, s) :: h.strs, h.arrs⟩)
      rw [hc] at hih
      have hred : collectStrs (s :: rest) h =
          (match (r, h2) with
            | (Res.ok ps, h2) => (Res.ok ((h.next + 1) :: ps), h2)
            | (Res.err e, h2) => (Res.err e, h2)
            | (Res.ub, h2) => (Res.ub, h2)
            | (Res.fatal, h2) => (Res.fatal, h2)) := by
        simp [collectStrs, cstrNew, hs, hc]
      have hsnd : (collectStrs (s :: rest) h).2 = h2 := by
        rw [hred]; cases r <;> rfl
      rw [hsnd]
      refine ⟨hih.1, Nat.le_trans (Nat.le_succ _) hih.2.1, fun q hq => ?_⟩
      rw [hih.2.2 q (Nat.le_trans hq (Nat.le_succ _))]
      have : h.next + 1 ≠ q := by omega
      simp [assocFind, this]

/-- On an input all of whose strings are free of embedded NUL bytes, the
element-conversion loop succeeds, produces one pointer per string, and
the produced pointers read back to exactly the input strings. -/
theorem collectStrs_ok (v : List Str) (h : SHeap) (hv : ∀ s ∈ v, 0 ∉ s) :
    ∃ ps h2, collectStrs v h = (Res.ok ps, h2) ∧ ps.length = v.length ∧
      readStrs ps h2 = Res.ok v := by
  induction v generalizing h with
  | nil => exact ⟨[], h, rfl, rfl, rfl⟩
  | cons s rest ih =>
    have hs : 0 ∉ s := hv s (by simp)
    obtain ⟨ps, h2, hc, hlen, hread⟩ :=
      ih (h := ⟨h.next + 1, (h.next + 1, s) :: h.strs, h.arrs⟩)
        (fun t ht => hv t (by simp [ht]))
    refine ⟨(h.next + 1) :: ps, h2, ?_, by simp [hlen], ?_⟩
    · simp [collectStrs, cstrNew, hs, hc]
    · have hpres := collectStrs_spec rest ⟨h.next + 1, (h.next + 1, s) :: h.strs, h.arrs⟩
      rw [hc] at hpres
      have hfind : assocFind (h.next + 1) h2.strs = some s := by
        rw [hpres.2.2 (h.next + 1) (Nat.le_refl _)]
        simp [assocFind]
      simp [readStrs, readStr, hfind, hread]

/-- Reading string pointers only consults the string region of the
heap. -/
theorem readStrs_congr (ps : List Nat) (h h2 : SHeap) (he : h.strs = h2.strs) :
    readStrs ps h = readStrs ps h2 := by
  induction ps with
  | nil => rfl
  | cons p rest ih => simp [readStrs, readStr, he, ih]

/-- Round trip of the wrapping casts on a count below `2^31`: the value
survives `as libc::c_int` followed by `as usize`. -/
theorem usizeOfI32_i32ofNat (n : Nat) (hn : n < 2 ^ 31) :
    usizeOfI32 (i32ofNat n) = n := by
  have hn32 : n % 2 ^ 32 = n := Nat.mod_eq_of_lt (by omega)
  simp only [i32ofNat, usizeOfI32, hn32, if_pos hn]
  omega

theorem i32ofNat_pow31 : i32ofNat (2 ^ 31) = -(2 ^ 31) := by
  have : (2 : Nat) ^ 31 % 2 ^ 32 = 2 ^ 31 := Nat.mod_eq_of_lt (by norm_num)
  simp only [i32ofNat, this]
  norm_num

theorem i32ofNat_pow32 : i32ofNat (2 ^ 32) = 0 := by
  simp [i32ofNat, Nat.mod_self]

/-- Remove a list of string addresses from the string region, in order. -/
def removeAll (ps : List Nat) (l : List (Nat × Str)) : List (Nat × Str) :=
  ps.foldl (fun acc p => assocRemove p acc) l

/-- The free loop of the text-array release, on a pointer list whose
first failing entry is a null pointer preceded by live distinct non-null
pointers: it frees exactly the prefix, then returns the failure,
leaving every pointer after the null one untouched. -/
theorem freeStrs_stops (xs ys : List Nat) (h : SHeap)
    (hlive : ∀ p ∈ xs, p ≠ 0 ∧ (assocFind p h.strs).isSome)
    (hnd : xs.Nodup) :
    freeStrs (xs ++ 0 :: ys) h =
      (Res.err (FfiErr.release 0), ⟨h.next, removeAll xs h.strs, h.arrs⟩) := by
  induction xs generalizing h with
  | nil => simp [freeStrs, cstrFree, removeAll]
  | cons p rest ih =>
    obtain ⟨hp0, hpsome⟩ := hlive p (by simp)
    obtain ⟨s, hs⟩ := Option.isSome_iff_exists.mp hpsome
    have hndr := List.nodup_cons.mp hnd
    have hfree : cstrFree p h = (Res.ok (), ⟨h.next, assocRemove p h.strs, h.arrs⟩) := by
      simp [cstrFree, hp0, hs]
    have hlive2 : ∀ q ∈ rest,
        q ≠ 0 ∧ (assocFind q (⟨h.next, assocRemove p h.strs, h.arrs⟩ : SHeap).strs).isSome := by
      intro q hq
      obtain ⟨hq0, hqs⟩ := hlive q (by simp [hq])
      refine ⟨hq0, ?_⟩
      show (assocFind q (assocRemove p h.strs)).isSome
      rw [assocFind_remove_ne p q _ (fun hqp => hndr.1 (hqp ▸ hq))]
      exact hqs
    have hih := ih ⟨h.next, assocRemove p h.strs, h.arrs⟩ hlive2 hndr.2
    calc freeStrs ((p :: rest) ++ 0 :: ys) h
        = freeStrs (rest ++ 0 :: ys) ⟨h.next, assocRemove p h.strs, h.arrs⟩ := by
          simp only [List.cons_append, freeStrs, hfree]
          rfl
      _ = (Res.err (FfiErr.release 0),
            ⟨h.next, removeAll rest (assocRemove p h.strs), h.arrs⟩) := hih
      _ = (Res.err (FfiErr.release 0), ⟨h.next, removeAll (p :: rest) h.strs, h.arrs⟩) := rfl

/-- Characterisation of `CArray::do_drop` on a live block: it returns
`Ok(())`, removes the block, and runs the element `Drop` glue on every
element, front to back, before the block goes away. -/
theorem cArray_do_drop_found (ops : ElemOps ν ε σ) (a : Nat) (es : List ε)
    (st : AHeap ε σ) (hfind : assocFind a st.blocks = some es) (hne : es ≠ []) :
    CArray.do_drop ops ⟨a, es.length⟩ st =
      (Res.ok (), ⟨st.next, assocRemove a st.blocks,
        es.foldl (fun s e => ops.dropGlue e s) st.inner⟩) := by
  have h0 : es.length ≠ 0 := by simpa using hne
  simp only [CArray.do_drop]
  rw [if_neg h0, hfind]
  simp

/-- Dropping a `CStringArray` element runs its trivial `Drop` glue, so a
fold of the glue over any element list leaves the inner heap unchanged. -/
theorem foldl_stringArray_dropGlue (es : List CStringArray) (h : SHeap) :
    es.foldl (fun s e => stringArrayOps.dropGlue e s) h = h := by
  induction es generalizing h with
  | nil => rfl
  | cons e rest ih => exact ih h

/-- The fail-fast read loop: if every element of the prefix restores and
the next element fails, the loop returns that element's error whatever
the elements after it are. -/
theorem readElems_failfast (re : ε → σ → Res ν) (xs : List ε) (bad : ε)
    (ys : List ε) (s : σ) (e : FfiErr)
    (hok : ∀ x ∈ xs, ∃ v, re x s = Res.ok v) (hbad : re bad s = Res.err e) :
    readElems re (xs ++ bad :: ys) s = Res.err e := by
  induction xs with
  | nil => simp [readElems, hbad]
  | cons x rest ih =>
    obtain ⟨v, hv⟩ := hok x (by simp)
    have hr := ih (fun y hy => hok y (by simp [hy]))
    simp [readElems, hv, hr]

/-- Unfolding of the text-array construct on a successful element
conversion. -/
theorem collectStrs_to_c_repr (v : List Str) (h : SHeap) (ps : List Nat)
    (h1 : SHeap) (hc : collectStrs v h = (Res.ok ps, h1)) :
    CStringArray.c_repr_of v h =
      (Res.ok ⟨(allocArr ps h1).1, i32ofNat v.length⟩, (allocArr ps h1).2) := by
  simp only [CStringArray.c_repr_of, hc]

/-- Unfolding of the construct-then-restore composite on a successful
construct. -/
theorem restoreAfterConstruct_ok (v : List Str) (h : SHeap) (c : CStringArray)
    (h2 : SHeap) (hc : CStringArray.c_repr_of v h = (Res.ok c, h2)) :
    restoreAfterConstruct v h = CStringArray.as_rust c h2 := by
  simp only [restoreAfterConstruct, hc]

/-- Restoring a text array whose count casts to zero reads nothing. -/
theorem as_rust_zero (c : CStringArray) (h : SHeap)
    (hz : usizeOfI32 c.size = 0) : CStringArray.as_rust c h = Res.ok [] := by
  simp only [CStringArray.as_rust, if_pos hz]

theorem usizeOfI32_zero : usizeOfI32 0 = 0 := by
  norm_num [usizeOfI32]

/-! The claims. -/

/-- Claim C1 (code bug): construct does NOT behave as claimed on a
failing element.  For the text-array adapter, converting
`["a", "\x00"]` fails with a ConstructionError as claimed, but the
string allocated for the first element is still live in the returned
heap — the previously converted element is leaked, not unwound.  For
the generic array adapter, a failing element conversion does not return
a ConstructionError at all: `.expect(...)` aborts the process. -/
theorem c1_construct_misbehaves :
    (CStringArray.c_repr_of [[97], [0]] SHeap.empty =
        (Res.err (FfiErr.construction 0), ⟨1, [(1, [97])], []⟩)) ∧
    (CArray.c_repr_of stringArrayOps [[[0]]] ⟨0, [], SHeap.empty⟩ =
        (Res.fatal, ⟨0, [], SHeap.empty⟩)) :=
  ⟨rfl, rfl⟩

/-- Claim C2 counterexample: a `CStringArray` whose block holds the
pointers `[0, 2]`, where string `2` is live.  Releasing it fails on the
null pointer `0` and returns immediately: the final heap still contains
string `2`, so the failure on one string did prevent the free attempt on
the remaining string, contradicting the claim. -/
theorem c2_counterexample :
    CStringArray.do_drop ⟨1, 2⟩ ⟨3, [(2, [120])], [(1, [0, 2])]⟩ =
        (Res.err (FfiErr.release 0), ⟨3, [(2, [120])], []⟩) ∧
      assocFind 2 (CStringArray.do_drop ⟨1, 2⟩
        ⟨3, [(2, [120])], [(1, [0, 2])]⟩).2.strs = some [120] :=
  ⟨rfl, rfl⟩

/-- Claim C2 (amended): the text-array release frees the containing
pointer block and then attempts the strings in order, but stops at the
first string whose free fails, returning that ReleaseError (without
aborting the process); the strings after the failing one are not freed.
Formally: on a block `xs ++ 0 :: ys` whose prefix `xs` is made of
distinct live non-null pointers, `do_drop` returns the release error,
with the block and exactly the prefix strings removed from the heap. -/
theorem c2_amended (h : SHeap) (a : Nat) (z : Int) (xs ys : List Nat)
    (hfind : assocFind a h.arrs = some (xs ++ 0 :: ys))
    (hn : (xs ++ 0 :: ys).length = usizeOfI32 z)
    (hlive : ∀ p ∈ xs, p ≠ 0 ∧ (assocFind p h.strs).isSome)
    (hnd : xs.Nodup) :
    CStringArray.do_drop ⟨a, z⟩ h =
      (Res.err (FfiErr.release 0),
        ⟨h.next, removeAll xs h.strs, assocRemove a h.arrs⟩) := by
  have hz : ¬ usizeOfI32 z = 0 := by
    rw [← hn]; simp
  simp only [CStringArray.do_drop]
  rw [if_neg hz, hfind]
  show (if (xs ++ 0 :: ys).length = usizeOfI32 z then
      freeStrs (xs ++ 0 :: ys) ⟨h.next, h.strs, assocRemove a h.arrs⟩
    else (Res.ub, h)) =
    (Res.err (FfiErr.release 0), ⟨h.next, removeAll xs h.strs, assocRemove a h.arrs⟩)
  rw [if_pos hn]
  exact freeStrs_stops xs ys ⟨h.next, h.strs, assocRemove a h.arrs⟩ hlive hnd

/-- Witness for the amended C2 at a concrete heap: block `[2, 0, 3]`
with strings `2` and `3` live; release frees string `2` and the block,
fails on the null pointer, and leaves string `3` allocated. -/
theorem c2_amended_witness :
    CStringArray.do_drop ⟨1, 3⟩ ⟨4, [(2, [97]), (3, [98])], [(1, [2, 0, 3])]⟩ =
      (Res.err (FfiErr.release 0), ⟨4, [(3, [98])], []⟩) :=
  c2_amended ⟨4, [(2, [97]), (3, [98])], [(1, [2, 0, 3])]⟩ 1 3 [2] [3]
    rfl (by decide) (by decide) (by decide)

/-- Claim C3 counterexample: constructing the text-array adapter from
the empty sequence yields size zero but a NON-null (dangling) data
pointer — `Box::into_raw` of an empty boxed slice is never null — so the
pointer field is not the sentinel even though the count is zero. -/
theorem c3_counterexample :
    CStringArray.c_repr_of [] SHeap.empty = (Res.ok ⟨1, 0⟩, ⟨1, [], []⟩) ∧
      (⟨1, (0 : Int)⟩ : CStringArray).data = 1 :=
  ⟨rfl, rfl⟩

/-- Claim C3 (amended): for the generic array adapter the claim holds as
stated — construct maps the empty sequence to the null pointer with size
zero (and leaves the heap untouched: no allocation is performed), and in
every successful construct the pointer is null iff the size is zero.
For the text-array adapter the empty sequence yields size zero but the
data pointer is never null (it is a fresh dangling pointer). -/
theorem c3_amended :
    (∀ (ν ε σ : Type) (ops : ElemOps ν ε σ) (st : AHeap ε σ),
        CArray.c_repr_of ops ([] : List ν) st = (Res.ok ⟨0, 0⟩, st)) ∧
    (∀ (ν ε σ : Type) (ops : ElemOps ν ε σ) (xs : List ν) (st : AHeap ε σ)
        (c : CArray ε) (st2 : AHeap ε σ),
        CArray.c_repr_of ops xs st = (Res.ok c, st2) →
          (c.data_ptr = 0 ↔ c.size = 0)) ∧
    (∀ (v : List Str) (h : SHeap) (c : CStringArray) (h2 : SHeap),
        CStringArray.c_repr_of v h = (Res.ok c, h2) →
          c.data ≠ 0 ∧ (v = [] → c.size = 0)) := by
  refine ⟨fun ν ε σ ops st => rfl, ?_, ?_⟩
  · intro ν ε σ ops xs st c st2 heq
    by_cases hx : xs.length > 0
    · rcases hc : collectElems ops [] xs st.inner with ⟨r, s1⟩
      cases r with
      | ok es =>
        simp only [CArray.c_repr_of, if_pos hx, hc] at heq
        have hcc : (⟨st.next + 1, xs.length⟩ : CArray ε) = c := by
          simpa using congrArg Prod.fst heq
        rw [← hcc]
        show st.next + 1 = 0 ↔ xs.length = 0
        omega
      | err e => simp [CArray.c_repr_of, if_pos hx, hc] at heq
      | ub => simp [CArray.c_repr_of, if_pos hx, hc] at heq
      | fatal => simp [CArray.c_repr_of, if_pos hx, hc] at heq
    · simp only [CArray.c_repr_of, if_neg hx] at heq
      have hcc : (⟨0, 0⟩ : CArray ε) = c := by
        simpa using congrArg Prod.fst heq
      rw [← hcc]
  · intro v h c h2 heq
    rcases hc : collectStrs v h with ⟨r, h1⟩
    cases r with
    | ok ps =>
      simp only [CStringArray.c_repr_of, hc] at heq
      have hcc : (⟨(allocArr ps h1).1, i32ofNat v.length⟩ : CStringArray) = c := by
        simpa using congrArg Prod.fst heq
      rw [← hcc]
      constructor
      · show (allocArr ps h1).1 ≠ 0
        by_cases hps : ps = [] <;> simp [allocArr, hps]
      · intro hv
        subst hv
        show i32ofNat 0 = 0
        norm_num [i32ofNat]
    | err e => simp [CStringArray.c_repr_of, hc] at heq
    | ub => simp [CStringArray.c_repr_of, hc] at heq
    | fatal => simp [CStringArray.c_repr_of, hc] at heq

/-- Witness for the amended C3 at concrete inputs: the empty generic
array construct yields the null pointer and size zero without touching
the heap; a one-element generic array satisfies the null-iff-zero
equivalence (non-null pointer, size one); the empty text array has size
zero (and, per the counterexample, a non-null pointer). -/
theorem c3_amended_witness :
    CArray.c_repr_of natElemOps ([] : List Nat) ⟨0, [], ()⟩ =
        (Res.ok ⟨0, 0⟩, ⟨0, [], ()⟩) ∧
      ((⟨1, 1⟩ : CArray Nat).data_ptr = 0 ↔ (⟨1, 1⟩ : CArray Nat).size = 0) ∧
      (⟨1, (0 : Int)⟩ : CStringArray).size = 0 :=
  ⟨c3_amended.1 Nat Nat Unit natElemOps ⟨0, [], ()⟩,
    c3_amended.2.1 Nat Nat Unit natElemOps [5] ⟨0, [], ()⟩ ⟨1, 1⟩ ⟨1, [(1, [5])], ()⟩ rfl,
    (c3_amended.2.2 [] SHeap.empty ⟨1, 0⟩ ⟨1, [], []⟩ rfl).2 rfl⟩

/-- Claim C4 counterexample: the round trip fails on a sequence of
`2^32` NUL-free strings — the stored `libc::c_int` count wraps to zero,
so restore returns the empty sequence (length `0`) while the original
sequence has length `2^32`: `restore(construct(v))` is not `v`. -/
theorem c4_counterexample :
    restoreAfterConstruct (List.replicate (2 ^ 32) []) SHeap.empty = Res.ok [] ∧
      (List.replicate (2 ^ 32) ([] : Str)).length = 2 ^ 32 := by
  refine ⟨?_, by rw [List.length_replicate]⟩
  obtain ⟨ps, h1, hc, hplen, hread⟩ :=
    collectStrs_ok (List.replicate (2 ^ 32) []) SHeap.empty
      (by intro s hs; rw [List.eq_of_mem_replicate hs]; simp)
  have hrepr := collectStrs_to_c_repr _ _ _ _ hc
  have hcomp := restoreAfterConstruct_ok _ _ _ _ hrepr
  have hsize : i32ofNat (List.replicate (2 ^ 32) ([] : Str)).length = 0 := by
    rw [List.length_replicate]
    exact i32ofNat_pow32
  have hz : usizeOfI32
      ((⟨(allocArr ps h1).1,
          i32ofNat (List.replicate (2 ^ 32) ([] : Str)).length⟩ : CStringArray).size) = 0 := by
    simp only [hsize]
    exact usizeOfI32_zero
  exact hcomp.trans (as_rust_zero _ _ hz)

/-- Claim C4 (amended): the round trip holds for every NUL-free sequence
whose length fits the signed 32-bit count, i.e. is below `2^31`:
construct succeeds and restore returns the original sequence, in order
and with the same length. -/
theorem c4_amended (v : List Str) (h : SHeap) (hv : ∀ s ∈ v, 0 ∉ s)
    (hlen : v.length < 2 ^ 31) :
    ∃ c h2, CStringArray.c_repr_of v h = (Res.ok c, h2) ∧
      CStringArray.as_rust c h2 = Res.ok v := by
  obtain ⟨ps, h1, hc, hplen, hread⟩ := collectStrs_ok v h hv
  refine ⟨⟨(allocArr ps h1).1, i32ofNat v.length⟩, (allocArr ps h1).2, ?_, ?_⟩
  · simp [CStringArray.c_repr_of, hc]
  · have hu : usizeOfI32 (i32ofNat v.length) = v.length :=
      usizeOfI32_i32ofNat _ hlen
    by_cases hv0 : v.length = 0
    · have hvnil : v = [] := List.length_eq_zero.mp hv0
      subst hvnil
      simp only [CStringArray.as_rust]
      rw [if_pos (by rw [hu]; rfl)]
    · have hps : ps ≠ [] := by
        intro h0
        rw [h0] at hplen
        simp at hplen
        omega
      have hA : allocArr ps h1 =
          (h1.next + 1, ⟨h1.next + 1, h1.strs, (h1.next + 1, ps) :: h1.arrs⟩) := by
        simp [allocArr, hps]
      have hfind : assocFind (h1.next + 1) ((h1.next + 1, ps) :: h1.arrs) = some ps := by
        simp [assocFind]
      simp only [CStringArray.as_rust, hA, hu]
      rw [if_neg hv0, hfind]
      show (if v.length ≤ ps.length then
          readStrs (List.take v.length ps)
            ⟨h1.next + 1, h1.strs, (h1.next + 1, ps) :: h1.arrs⟩
        else Res.ub) = Res.ok v
      rw [if_pos (le_of_eq hplen.symm)]
      rw [show List.take v.length ps = ps from by rw [← hplen]; exact List.take_length ps]
      exact (readStrs_congr ps ⟨h1.next + 1, h1.strs, (h1.next + 1, ps) :: h1.arrs⟩
        h1 rfl).trans hread

/-- Witness for the amended C4: the round trip on the one-string
sequence `["a"]`, whose constructed boundary value and heap are
computed explicitly. -/
theorem c4_amended_witness :
    CStringArray.as_rust ⟨2, 1⟩ ⟨2, [(1, [97])], [(2, [1])]⟩ = Res.ok [[97]] := by
  obtain ⟨c, h2, hc, hr⟩ := c4_amended [[97]] SHeap.empty (by decide) (by norm_num)
  have h0 : CStringArray.c_repr_of [[97]] SHeap.empty =
      (Res.ok ⟨2, 1⟩, (⟨2, [(1, [97])], [(2, [1])]⟩ : SHeap)) := rfl
  rw [hc] at h0
  injection h0 with hfst hsnd
  injection hfst with hcc
  rw [← hcc, ← hsnd]
  exact hr

/-- Claim C5 (code bug): the stored count is always the wrapping cast
`input.len() as libc::c_int` of the input length; on an input of `2^31`
strings construct succeeds and silently stores the wrapped, negative
count `-2^31` — it neither fails nor saturates. -/
theorem c5_count_wraps :
    (∀ (v : List Str) (h : SHeap) (c : CStringArray) (h2 : SHeap),
        CStringArray.c_repr_of v h = (Res.ok c, h2) →
          c.size = i32ofNat v.length) ∧
    (∃ c h2, CStringArray.c_repr_of (List.replicate (2 ^ 31) []) SHeap.empty =
        (Res.ok c, h2) ∧ c.size = -(2 ^ 31)) := by
  constructor
  · intro v h c h2 heq
    rcases hc : collectStrs v h with ⟨r, h1⟩
    cases r with
    | ok ps =>
      simp only [CStringArray.c_repr_of, hc] at heq
      have hcc : (⟨(allocArr ps h1).1, i32ofNat v.length⟩ : CStringArray) = c := by
        simpa using congrArg Prod.fst heq
      rw [← hcc]
    | err e => simp [CStringArray.c_repr_of, hc] at heq
    | ub => simp [CStringArray.c_repr_of, hc] at heq
    | fatal => simp [CStringArray.c_repr_of, hc] at heq
  · obtain ⟨ps, h1, hc, hplen, hread⟩ :=
      collectStrs_ok (List.replicate (2 ^ 31) []) SHeap.empty
        (by intro s hs; rw [List.eq_of_mem_replicate hs]; simp)
    refine ⟨⟨(allocArr ps h1).1,
        i32ofNat (List.replicate (2 ^ 31) ([] : Str)).length⟩,
      (allocArr ps h1).2, collectStrs_to_c_repr _ _ _ _ hc, ?_⟩
    simp only [List.length_replicate]
    exact i32ofNat_pow31

/-- Witness for C5's universal part at a concrete input: the one-string
sequence stores count `i32ofNat 1`. -/
theorem c5_count_wraps_witness :
    (⟨2, (1 : Int)⟩ : CStringArray).size = i32ofNat 1 :=
  c5_count_wraps.1 [[97]] SHeap.empty ⟨2, 1⟩ ⟨2, [(1, [97])], [(2, [1])]⟩ rfl

/-- Claim C6 counterexample: a non-empty `CArray<CStringArray>` whose
single element owns a live string (address 2) and a live pointer block
(address 3) in the inner heap.  `CArray::do_drop` succeeds and frees the
outer block, but the element's resources are still allocated afterwards:
the Item-level release (which, as the second equation shows, would have
freed them) is never invoked, because `CStringArray` has no `Drop`
impl. -/
theorem c6_counterexample :
    CArray.do_drop stringArrayOps ⟨1, 1⟩
        ⟨1, [(1, [⟨3, 1⟩])], ⟨3, [(2, [97])], [(3, [2])]⟩⟩ =
      (Res.ok (), ⟨1, [], ⟨3, [(2, [97])], [(3, [2])]⟩⟩) ∧
    CStringArray.do_drop ⟨3, 1⟩ ⟨3, [(2, [97])], [(3, [2])]⟩ =
      (Res.ok (), ⟨3, [], []⟩) :=
  ⟨rfl, rfl⟩

/-- Claim C6 (amended): on a live non-empty block, the generic array
release runs each element's Rust `Drop` glue in order and then frees the
containing block, returning success; the Item-level `do_drop` is invoked
only for item types whose `Drop` impl calls it.  In particular, with
`CStringArray` items (which have no `Drop` impl) the inner heap is never
changed by the array's release — nested resources are leaked, not
released. -/
theorem c6_amended :
    (∀ (ν ε σ : Type) (ops : ElemOps ν ε σ) (a : Nat) (es : List ε)
        (st : AHeap ε σ), assocFind a st.blocks = some es → es ≠ [] →
        CArray.do_drop ops ⟨a, es.length⟩ st =
          (Res.ok (), ⟨st.next, assocRemove a st.blocks,
            es.foldl (fun s e => ops.dropGlue e s) st.inner⟩)) ∧
    (∀ (c : CArray CStringArray) (st : AHeap CStringArray SHeap),
        (CArray.do_drop stringArrayOps c st).2.inner = st.inner) := by
  constructor
  · intro ν ε σ ops a es st hf hne
    exact cArray_do_drop_found ops a es st hf hne
  · intro c st
    simp only [CArray.do_drop]
    by_cases h0 : c.size = 0
    · rw [if_pos h0]
    · rw [if_neg h0]
      rcases hf : assocFind c.data_ptr st.blocks with _ | es
      · simp
      · simp only
        by_cases hl : es.length = c.size
        · rw [if_pos hl]
          exact foldl_stringArray_dropGlue es st.inner
        · rw [if_neg hl]

/-- Witness for the amended C6 at a concrete input: releasing a
one-element generic array of scalars frees its block and succeeds. -/
theorem c6_amended_witness :
    CArray.do_drop natElemOps ⟨1, 1⟩ ⟨1, [(1, [5])], ()⟩ =
      (Res.ok (), ⟨1, [], ()⟩) :=
  c6_amended.1 Nat Nat Unit natElemOps 1 [5] ⟨1, [(1, [5])], ()⟩ rfl (by simp)

/-- Claim C7: for any element conversion that is a pure pass-through
(as the primitive scalar impls are), `CRange` construct stores the two
endpoints and restore returns exactly the original range, with no
ordering validation anywhere — the statement carries no hypothesis
relating `start` and `end`, and the witness instantiates it with
`start > end`. -/
theorem c7_range_roundtrip (ν ε σ : Type) (f : ν → ε)
    (ce : ν → σ → Res ε × σ) (re : ε → σ → Res ν)
    (hce : ∀ x s, ce x s = (Res.ok (f x), s))
    (hre : ∀ x s, re (f x) s = Res.ok x) (r : RRange ν) (s : σ) :
    CRange.c_repr_of ce r s = (Res.ok ⟨f r.start, f r.«end»⟩, s) ∧
      CRange.as_rust re ⟨f r.start, f r.«end»⟩ s = Res.ok r := by
  constructor
  · simp [CRange.c_repr_of, hce]
  · simp only [CRange.as_rust, hre]

/-- Witness for C7 with identity scalar conversion at the
order-violating range `start = 5 > 2 = end`: both directions succeed and
the round trip is exact. -/
theorem c7_range_roundtrip_witness :
    CRange.c_repr_of (fun (x : Int) (s : Unit) => (Res.ok x, s)) ⟨5, 2⟩ () =
        (Res.ok ⟨5, 2⟩, ()) ∧
      CRange.as_rust (fun (x : Int) (_ : Unit) => Res.ok x) ⟨5, 2⟩ () =
        Res.ok ⟨5, 2⟩ :=
  c7_range_roundtrip Int Int Unit (fun x => x) _ _ (fun _ _ => rfl)
    (fun _ _ => rfl) ⟨5, 2⟩ ()

/-- Claim C8: if the elements before position `i` of a generic array
restore successfully and element `i` fails, `CArray::as_rust` returns
exactly that element's error — whatever the elements after `i` are
(they are quantified freely, so they are never restored), and no
partial sequence is produced. -/
theorem c8_restore_failfast (ν ε σ : Type) (ops : ElemOps ν ε σ) (a : Nat)
    (xs : List ε) (bad : ε) (ys : List ε) (st : AHeap ε σ) (e : FfiErr)
    (hfind : assocFind a st.blocks = some (xs ++ bad :: ys))
    (hok : ∀ x ∈ xs, ∃ v, ops.as_rust x st.inner = Res.ok v)
    (hbad : ops.as_rust bad st.inner = Res.err e) :
    CArray.as_rust ops ⟨a, (xs ++ bad :: ys).length⟩ st = Res.err e := by
  simp only [CArray.as_rust]
  rw [if_pos (by simp), hfind]
  show (if (xs ++ bad :: ys).length ≤ (xs ++ bad :: ys).length then
      readElems ops.as_rust ((xs ++ bad :: ys).take (xs ++ bad :: ys).length)
        st.inner
    else Res.ub) = Res.err e
  rw [if_pos (le_refl _), List.take_length]
  exact readElems_failfast ops.as_rust xs bad ys st.inner e hok hbad

/-- Witness for C8 at a concrete input: a three-element array whose
middle element fails to restore; the whole restore returns that error. -/
theorem c8_restore_failfast_witness :
    CArray.as_rust flakyRestoreOps ⟨1, 3⟩ ⟨1, [(1, [5, 0, 7])], ()⟩ =
      Res.err (FfiErr.restoration 9) :=
  c8_restore_failfast Nat Nat Unit flakyRestoreOps 1 [5] 0 [7]
    ⟨1, [(1, [5, 0, 7])], ()⟩ (FfiErr.restoration 9) rfl
    (by intro x hx; simp at hx; subst hx; exact ⟨5, rfl⟩) rfl

/-- Claim C9 counterexample: the scope-exit glue of `CArray` (its `Drop`
impl, which Rust invokes automatically when the value goes out of scope)
frees the array's block with no caller-driven release call: block `1` is
live before the implicit drop and the blocks region is empty after it,
so release does happen automatically at scope exit. -/
theorem c9_counterexample :
    CArray.dropHook natElemOps ⟨1, 1⟩ ⟨1, [(1, [5])], ()⟩ = ⟨1, [], ()⟩ ∧
      assocFind 1 ([(1, [5])] : List (Nat × List Nat)) = some [5] :=
  ⟨rfl, rfl⟩

/-- Claim C9 (amended): only the text-array adapter has no implicit
release — its scope-exit glue leaves the heap unchanged.  `CArray` and
`CRange` implement `Drop`, so they invoke `do_drop` automatically at
scope exit: `CRange`'s implicit release is a no-op, while `CArray`'s
frees its block (after the implicit drop, the block is gone). -/
theorem c9_amended :
    (∀ (c : CStringArray) (h : SHeap), CStringArray.dropGlue c h = h) ∧
    (∀ (ε σ : Type) (c : CRange ε) (s : σ), CRange.dropHook c s = s) ∧
    (∀ (ν ε σ : Type) (ops : ElemOps ν ε σ) (a : Nat) (es : List ε)
        (st : AHeap ε σ), assocFind a st.blocks = some es → es ≠ [] →
        assocFind a (CArray.dropHook ops ⟨a, es.length⟩ st).blocks = none) := by
  refine ⟨fun c h => rfl, fun ε σ c s => rfl, ?_⟩
  intro ν ε σ ops a es st hf hne
  simp only [CArray.dropHook]
  rw [cArray_do_drop_found ops a es st hf hne]
  exact assocFind_remove_self a st.blocks

/-- Witness for the amended C9 at a concrete input: after the implicit
scope-exit drop of a one-element generic array, its block is gone. -/
theorem c9_amended_witness :
    assocFind 1 (CArray.dropHook natElemOps ⟨1, 1⟩ ⟨1, [(1, [5])], ()⟩).blocks =
      none :=
  c9_amended.2.2 Nat Nat Unit natElemOps 1 [5] ⟨1, [(1, [5])], ()⟩ rfl (by simp)

/-- Claim C10: the release of the generic array adapter never returns an
error (its only outcomes are success, or undefined behaviour on a forged
boundary value — never a `ReleaseError`); the range adapter's release
always succeeds and changes nothing; and the text-array adapter is
indeed the only one that can report a release failure (witnessed by a
block containing a null string pointer). -/
theorem c10_generic_release_never_fails :
    (∀ (ν ε σ : Type) (ops : ElemOps ν ε σ) (c : CArray ε) (st : AHeap ε σ),
        (CArray.do_drop ops c st).1 = Res.ok () ∨
          (CArray.do_drop ops c st).1 = Res.ub) ∧
    (∀ (ε σ : Type) (c : CRange ε) (s : σ), CRange.do_drop c s = (Res.ok (), s)) ∧
    (∃ (c : CStringArray) (h : SHeap),
        (CStringArray.do_drop c h).1 = Res.err (FfiErr.release 0)) := by
  refine ⟨?_, fun ε σ c s => rfl, ⟨⟨1, 1⟩, ⟨1, [], [(1, [0])]⟩, rfl⟩⟩
  intro ν ε σ ops c st
  simp only [CArray.do_drop]
  by_cases h0 : c.size = 0
  · rw [if_pos h0]
    exact Or.inl rfl
  · rw [if_neg h0]
    rcases hf : assocFind c.data_ptr st.blocks with _ | es
    · exact Or.inr rfl
    · simp only
      by_cases hl : es.length = c.size
      · rw [if_pos hl]
        exact Or.inl rfl
      · rw [if_neg hl]
        exact Or.inr rfl

end FfiConvert
